import Mathlib

set_option maxRecDepth 100000

namespace FFPatch

/-!
Shallow embedding of `scripts/vast/patch-facefusion.py`.

The script applies a fixed sequence of `re.sub` substitutions to the text of
two target files and then verifies, by literal substring search, that marker
comments are present.  Texts are modelled as `List Char`.  The regular
expressions used by the script fall into a small fragment: literal runs,
a lazy any-character gap `.*?` under `re.DOTALL`, a hexadecimal character
class repeated exactly 8 times or one-or-more times (greedy), and the
multiline anchors `^` and `$`.  `matchToks` implements exactly that fragment
with Python's backtracking semantics, and `subAll` implements the
left-to-right non-overlapping scan of `re.sub` (none of the script's
patterns can match the empty string, since each starts with a nonempty
literal).
-/

/-- The text of a target file. -/
abbrev Text := List Char

/-- Characters of a Lean string literal, used to transcribe the Python string
literals of the script. -/
def s2l (s : String) : Text := s.data

/-- Character of `t` at absolute position `i`. -/
def charAt : Text → Nat → Option Char
  | [], _ => none
  | c :: _, 0 => some c
  | _ :: t, n+1 => charAt t n

/-- Does the literal `s` occur in `t` starting at position `i`? -/
def litAt (t : Text) : Text → Nat → Bool
  | [], _ => true
  | c :: s, i =>
    match charAt t i with
    | some d => if d = c then litAt t s (i+1) else false
    | none => false

/-- Do the `n` characters of `t` starting at position `i` all belong to the
character class `cs`? -/
def clsAt (t : Text) (cs : Text) : Nat → Nat → Bool
  | 0, _ => true
  | n+1, i =>
    match charAt t i with
    | some d => if cs.contains d then clsAt t cs n (i+1) else false
    | none => false

/-- Length of the maximal run of characters of class `cs` at position `i`
of `t` (the fuel argument is in practice `t.length`, which always suffices). -/
def runLen (t : Text) (cs : Text) : Nat → Nat → Nat
  | 0, _ => 0
  | fuel+1, i =>
    match charAt t i with
    | some d => if cs.contains d then runLen t cs fuel (i+1) + 1 else 0
    | none => 0

/-- Start-of-line position: Python `re.MULTILINE` semantics of `^`. -/
def bolAt (t : Text) (i : Nat) : Bool :=
  if i = 0 then true else decide (charAt t (i-1) = some '\n')

/-- End-of-line position: Python `re.MULTILINE` semantics of `$`. -/
def eolAt (t : Text) (i : Nat) : Bool :=
  if i = t.length then true else decide (charAt t i = some '\n')

/-- Token of the regular-expression fragment used by the script. -/
inductive RTok where
  | lit : Text → RTok
  | clsE : Text → Nat → RTok
  | clsP : Text → RTok
  | lazy : RTok
  | bol : RTok
  | eol : RTok
deriving DecidableEq

/-- Lazy gap: try the continuation at `j`, `j+1`, ... (shortest first),
as Python's `.*?` under `re.DOTALL` does. -/
def tryUp (k : Nat → Option Nat) : Nat → Nat → Option Nat
  | _, 0 => none
  | j, fuel+1 =>
    match k j with
    | some e => some e
    | none => tryUp k (j+1) fuel

/-- Greedy one-or-more class: try the continuation after `m`, `m-1`, ..., `1`
consumed characters (longest first), as Python's `[..]+` does. -/
def tryDown (k : Nat → Option Nat) (i : Nat) : Nat → Option Nat
  | 0 => none
  | m+1 =>
    match k (i + (m+1)) with
    | some e => some e
    | none => tryDown k i m

/-- Match the token sequence `p` against `t` at position `i`, returning the
end position of the match, with Python's backtracking semantics. -/
def matchToks (t : Text) : List RTok → Nat → Option Nat
  | [] => fun i => some i
  | RTok.lit s :: rest => fun i =>
    if litAt t s i then matchToks t rest (i + s.length) else none
  | RTok.clsE cs n :: rest => fun i =>
    if clsAt t cs n i then matchToks t rest (i + n) else none
  | RTok.clsP cs :: rest => fun i =>
    tryDown (matchToks t rest) i (runLen t cs t.length i)
  | RTok.lazy :: rest => fun i =>
    tryUp (matchToks t rest) i (t.length + 1 - i)
  | RTok.bol :: rest => fun i =>
    if bolAt t i then matchToks t rest i else none
  | RTok.eol :: rest => fun i =>
    if eolAt t i then matchToks t rest i else none

/-- The left-to-right scan of `re.sub`: at each position try to match `p`;
on a match emit `repl` and continue after the match, otherwise copy one
character.  (For an empty match Python emits the replacement and then copies
the current character; the script's patterns all start with a nonempty
literal, so their matches are never empty.)  The fuel is `t.length`, which
always suffices since every step advances the position. -/
def subGo (t : Text) (p : List RTok) (repl : Text) : Nat → Nat → Text
  | i, 0 => t.drop i
  | i, fuel+1 =>
    match charAt t i with
    | none => []
    | some c =>
      match matchToks t p i with
      | some e =>
        if i < e then repl ++ subGo t p repl e fuel
        else repl ++ (c :: subGo t p repl (i+1) fuel)
      | none => c :: subGo t p repl (i+1) fuel

/-- `re.sub(pattern, repl, t)` for the fragment. -/
def subAll (p : List RTok) (repl : Text) (t : Text) : Text :=
  subGo t p repl 0 t.length

/-- The character class `[a-f0-9]` of the hash patterns. -/
def hexChars : Text := s2l "abcdef0123456789"

/-! ### The seven substitutions of `patch_content_analyser` -/

/-- Rule 1 pattern:
`(@lru_cache\(\)\ndef create_static_model_set\(download_scope : DownloadScope\) -> ModelSet:.*?^\t\}$)`
with `re.MULTILINE | re.DOTALL` (the capture group is irrelevant to matching). -/
def caP1 : List RTok :=
  [RTok.lit (s2l "@lru_cache()\ndef create_static_model_set(download_scope : DownloadScope) -> ModelSet:"),
   RTok.lazy, RTok.bol, RTok.lit (s2l "\t\x7d"), RTok.eol]

/-- Rule 1 replacement. -/
def caR1 : Text :=
  s2l "@lru_cache()\ndef create_static_model_set(download_scope : DownloadScope) -> ModelSet:\n\t# PATCHED: NSFW models removed\n\treturn \x7b\x7d"

/-- Rule 2 pattern (`re.DOTALL`). -/
def caP2 : List RTok :=
  [RTok.lit (s2l "def pre_check() -> bool:"), RTok.lazy,
   RTok.lit (s2l "return conditional_download_hashes(model_hash_set) and conditional_download_sources(model_source_set)")]

/-- Rule 2 replacement. -/
def caR2 : Text :=
  s2l "def pre_check() -> bool:\n\t# PATCHED: Skip NSFW model downloads\n\treturn True"

/-- Rule 3 pattern (a pure literal). -/
def caP3 : List RTok :=
  [RTok.lit (s2l "def analyse_frame(vision_frame : VisionFrame) -> bool:\n\treturn detect_nsfw(vision_frame)")]

/-- Rule 3 replacement. -/
def caR3 : Text :=
  s2l "def analyse_frame(vision_frame : VisionFrame) -> bool:\n\t# PATCHED: NSFW check disabled\n\treturn False"

/-- Rule 4 pattern (`re.DOTALL`). -/
def caP4 : List RTok :=
  [RTok.lit (s2l "def analyse_stream(vision_frame : VisionFrame, video_fps : Fps) -> bool:"),
   RTok.lazy, RTok.lit (s2l "return False")]

/-- Rule 4 replacement. -/
def caR4 : Text :=
  s2l "def analyse_stream(vision_frame : VisionFrame, video_fps : Fps) -> bool:\n\t# PATCHED: NSFW check disabled\n\treturn False"

/-- Rule 5 pattern (a pure literal). -/
def caP5 : List RTok :=
  [RTok.lit (s2l "@lru_cache()\ndef analyse_image(image_path : str) -> bool:\n\tvision_frame = read_image(image_path)\n\treturn analyse_frame(vision_frame)")]

/-- Rule 5 replacement. -/
def caR5 : Text :=
  s2l "@lru_cache()\ndef analyse_image(image_path : str) -> bool:\n\t# PATCHED: NSFW check disabled\n\treturn False"

/-- Rule 6 pattern (`re.DOTALL`). -/
def caP6 : List RTok :=
  [RTok.lit (s2l "@lru_cache()\ndef analyse_video(video_path : str, trim_frame_start : int, trim_frame_end : int) -> bool:"),
   RTok.lazy, RTok.lit (s2l "return bool(rate > 10.0)")]

/-- Rule 6 replacement. -/
def caR6 : Text :=
  s2l "@lru_cache()\ndef analyse_video(video_path : str, trim_frame_start : int, trim_frame_end : int) -> bool:\n\t# PATCHED: NSFW check disabled\n\treturn False"

/-- Rule 7 pattern (`re.DOTALL`). -/
def caP7 : List RTok :=
  [RTok.lit (s2l "def detect_nsfw(vision_frame : VisionFrame) -> bool:"), RTok.lazy,
   RTok.lit (s2l "return is_nsfw_1 and is_nsfw_2 or is_nsfw_1 and is_nsfw_3 or is_nsfw_2 and is_nsfw_3")]

/-- Rule 7 replacement. -/
def caR7 : Text :=
  s2l "def detect_nsfw(vision_frame : VisionFrame) -> bool:\n\t# PATCHED: NSFW detection disabled\n\treturn False"

/-- The ordered rule table of `patch_content_analyser`. -/
def contentRules : List (List RTok × Text) :=
  [(caP1, caR1), (caP2, caR2), (caP3, caR3), (caP4, caR4), (caP5, caR5), (caP6, caR6), (caP7, caR7)]

/-- The text transformation performed by `patch_content_analyser`:
the seven substitutions applied in order to the file's text. -/
def patch_content_analyser_transform (t : Text) : Text :=
  contentRules.foldl (fun c r => subAll r.1 r.2 c) t

/-! ### The three strategies of `patch_core` -/

/-- Core strategy 1 pattern: `content_analyser_hash == '[a-f0-9]{8}'`. -/
def coreP1 : List RTok :=
  [RTok.lit (s2l "content_analyser_hash == '"), RTok.clsE hexChars 8, RTok.lit (s2l "'")]

/-- Core strategy 1 replacement. -/
def coreR1 : Text := s2l "True  # PATCHED: Hash check bypassed"

/-- Core strategy 2 pattern: the whole hash-computation block. -/
def coreP2 : List RTok :=
  [RTok.lit (s2l "\tcontent_analyser_content = inspect.getsource(content_analyser).encode()\n\tcontent_analyser_hash = hash_helper.create_hash(content_analyser_content)\n\n\treturn all(module.pre_check() for module in common_modules) and content_analyser_hash == '"),
   RTok.clsE hexChars 8, RTok.lit (s2l "'")]

/-- Core strategy 2 replacement. -/
def coreR2 : Text :=
  s2l "\t# PATCHED: Hash check removed\n\treturn all(module.pre_check() for module in common_modules)"

/-- Core strategy 3 (looser) pattern: `content_analyser_hash == '[a-f0-9]+'`. -/
def coreP3 : List RTok :=
  [RTok.lit (s2l "content_analyser_hash == '"), RTok.clsP hexChars, RTok.lit (s2l "'")]

/-- Core strategy 3 replacement. -/
def coreR3 : Text := s2l "True  # PATCHED"

/-- The text transformation performed by `patch_core`: strategies 1 and 2
always run, strategy 3 runs only if the text is still equal to the original. -/
def patch_core_transform (t : Text) : Text :=
  let c1 := subAll coreP1 coreR1 t
  let c2 := subAll coreP2 coreR2 c1
  if c2 = t then subAll coreP3 coreR3 c2 else c2

/-- The full rewrite sequence of one run of the script, viewed as a single
text transformation: the seven content substitutions followed by the three
core strategies. -/
def applyAllPatches (t : Text) : Text :=
  patch_core_transform (patch_content_analyser_transform t)

/-! ### Occurrences and the `in` operator of Python -/

/-- `s` occurs as a contiguous segment of `t`. -/
def Occ (s t : Text) : Prop := ∃ i, litAt t s i = true

/-- Python's substring test `s in t`, as used by `verify_patches`. -/
def containsStr (t s : Text) : Bool :=
  (List.range (t.length + 1)).any (fun i => litAt t s i)

/-! ### The file-level behaviour of the two patch functions -/

/-- Result of running one patch function on one file: the on-disk content
afterwards, whether the file was written, and whether the "no changes"
warning was printed. -/
structure PatchOut where
  text : Text
  wrote : Bool
  warned : Bool
deriving DecidableEq

/-- `patch_content_analyser` / `patch_core` at the file level: read the text,
transform it, and write back only if the transformed text differs from the
original (else print a warning). -/
def runPatchFile (transform : Text → Text) (orig : Text) : PatchOut :=
  let content := transform orig
  if content = orig then ⟨orig, false, true⟩ else ⟨content, true, false⟩

/-! ### `verify_patches` -/

/-- The three marker checks performed on the moderation file, in order. -/
def caChecks (content : Text) : List (String × Bool) :=
  [("NSFW models removed", containsStr content (s2l "# PATCHED: NSFW models removed")),
   ("pre_check disabled", containsStr content (s2l "# PATCHED: Skip NSFW model downloads")),
   ("analyse_frame disabled", containsStr content (s2l "# PATCHED: NSFW check disabled"))]

/-- `verify_patches`, over the contents of the two target files (`none`
models a file that does not exist and is silently skipped).  `success`
starts true and is cleared by each failing check, never set back. -/
def verify_patches (ca co : Option Text) : Bool :=
  let success := true
  let success :=
    match ca with
    | none => success
    | some content => (caChecks content).foldl (fun s nb => if nb.2 then s else false) success
  let success :=
    match co with
    | none => success
    | some content => if containsStr content (s2l "# PATCHED") then success else false
  success

/-! ### The entry point -/

/-- The filesystem visible to the script: existing directories and the
contents of existing files. -/
structure FS where
  dirs : List String
  files : List (String × Text)
deriving DecidableEq

/-- Content of the file at `p`, if it exists. -/
def FS.fileGet (fs : FS) (p : String) : Option Text :=
  (fs.files.find? (fun pr => pr.1 == p)).map Prod.snd

/-- Overwrite the file at `p` in place. -/
def FS.fileWrite (fs : FS) (p : String) (c : Text) : FS :=
  ⟨fs.dirs, (p, c) :: fs.files.filter (fun pr => pr.1 != p)⟩

/-- Outcome of one run of the script's `main`: process exit code, the file
paths touched in any way (existence checks and reads, in order), the paths
written, and the filesystem afterwards. -/
structure RunResult where
  exitCode : Nat
  accesses : List String
  writes : List String
  fs : FS
deriving DecidableEq

/-- Run one patch function against the file at `path` (which `main` has
already checked to exist): read, transform, write back only on change. -/
def runPatchOn (fs : FS) (path : String) (transform : Text → Text) : FS × Bool :=
  match fs.fileGet path with
  | none => (fs, false)
  | some t =>
    let out := runPatchFile transform t
    if out.wrote then (fs.fileWrite path out.text, true) else (fs, false)

/-- The script's `main`: usage check, existence checks on the root directory
and the two fixed target paths (each failure exits with status 1 before any
write), then both patch functions and the verification pass; exit status 0
exactly when verification succeeds. -/
def mainRun (argv : List String) (fs : FS) : RunResult :=
  match argv with
  | [_, dir] =>
    let caPath := dir ++ "/facefusion/content_analyser.py"
    let corePath := dir ++ "/facefusion/core.py"
    if ¬ dir ∈ fs.dirs then ⟨1, [dir], [], fs⟩
    else if fs.fileGet caPath = none then ⟨1, [dir, caPath], [], fs⟩
    else if fs.fileGet corePath = none then ⟨1, [dir, caPath, corePath], [], fs⟩
    else
      let r1 := runPatchOn fs caPath patch_content_analyser_transform
      let r2 := runPatchOn r1.1 corePath patch_core_transform
      let ok := verify_patches (r2.1.fileGet caPath) (r2.1.fileGet corePath)
      ⟨if ok then 0 else 1,
       [dir, caPath, corePath, caPath, corePath, caPath, corePath],
       (if r1.2 then [caPath] else []) ++ (if r2.2 then [corePath] else []),
       r2.1⟩
  | _ => ⟨1, [], [], fs⟩

/-! ### Rule metadata used by the verification-oriented claims -/

/-- The head literal (the structural landmark) of a pattern. -/
def headOfPattern : List RTok → Text
  | RTok.lit s :: _ => s
  | _ => []

/-- The marker comment embedded in a replacement text: the segment from the
first `#` up to the end of that line. -/
def extractMarker (r : Text) : Text :=
  (r.dropWhile (fun c => !(c == '#'))).takeWhile (fun c => !(c == '\n'))

/-! ### Concrete texts used by counterexamples and witnesses -/

/-- A core-file text with one 8-hex-digit hash comparison and one 3-hex-digit
hash comparison.  On a first run strategy 1 rewrites the first comparison, so
strategy 3 is skipped; a second run finds the text unchanged by strategies 1
and 2 and its strategy 3 rewrites the second comparison. -/
def twoHashText : Text :=
  s2l "content_analyser_hash == 'deadbeef' and content_analyser_hash == 'abc'"

/-- A core-file text containing exactly the landmark comparison of C5. -/
def deadbeefText : Text := s2l "content_analyser_hash == 'deadbeef'"

/-- The exact original `analyse_frame` definition (the landmark of rule 3). -/
def analyseFrameText : Text :=
  s2l "def analyse_frame(vision_frame : VisionFrame) -> bool:\n\treturn detect_nsfw(vision_frame)"

/-- A moderation-file text that contains the `analyse_frame` landmark inside
the span matched by rule 2 (`pre_check` header before it, the
`conditional_download` tail after it). -/
def swallowedFrameText : Text :=
  s2l "def pre_check() -> bool:def analyse_frame(vision_frame : VisionFrame) -> bool:\n\treturn detect_nsfw(vision_frame)return conditional_download_hashes(model_hash_set) and conditional_download_sources(model_source_set)"

/-- A moderation-file text containing only the `analyse_stream` landmark of
rule 4 (no `analyse_frame` anywhere). -/
def streamOnlyText : Text :=
  s2l "def analyse_stream(vision_frame : VisionFrame, video_fps : Fps) -> bool:\nreturn False"

/-- A moderation-file text carrying all three verifier markers. -/
def allMarkersText : Text :=
  s2l "# PATCHED: NSFW models removed\n# PATCHED: Skip NSFW model downloads\n# PATCHED: NSFW check disabled"

/-- An empty filesystem. -/
def fs0 : FS := ⟨[], []⟩

/-! ### Basic lemmas about positions and literal occurrences -/

theorem charAt_cons_succ (c : Char) (t : Text) (i : Nat) :
    charAt (c :: t) (i+1) = charAt t i := rfl

theorem charAt_some_lt {t : Text} {i : Nat} {c : Char} (h : charAt t i = some c) :
    i < t.length := by
  induction t generalizing i with
  | nil => simp [charAt] at h
  | cons d t ih =>
    cases i with
    | zero => simp
    | succ j =>
      have hj : j < t.length := ih (by simpa [charAt_cons_succ] using h)
      simp only [List.length_cons]
      omega

theorem charAt_lt_some {t : Text} {i : Nat} (h : i < t.length) :
    ∃ c, charAt t i = some c := by
  induction t generalizing i with
  | nil => simp at h
  | cons d t ih =>
    cases i with
    | zero => exact ⟨d, rfl⟩
    | succ j =>
      have hj : j < t.length := by simp only [List.length_cons] at h; omega
      simpa [charAt_cons_succ] using ih hj

theorem drop_cons_of_charAt {t : Text} {i : Nat} {c : Char} (h : charAt t i = some c) :
    t.drop i = c :: t.drop (i+1) := by
  induction t generalizing i with
  | nil => simp [charAt] at h
  | cons d t ih =>
    cases i with
    | zero => simp [charAt] at h; simp [h]
    | succ j =>
      have := ih (by simpa [charAt_cons_succ] using h)
      simpa using this

theorem drop_nil_of_charAt {t : Text} {i : Nat} (h : charAt t i = none) :
    t.drop i = [] := by
  induction t generalizing i with
  | nil => simp
  | cons d t ih =>
    cases i with
    | zero => simp [charAt] at h
    | succ j =>
      have := ih (by simpa [charAt_cons_succ] using h)
      simpa using this

theorem litAt_cons_succ (c : Char) (t s : Text) (i : Nat) :
    litAt (c :: t) s (i+1) = litAt t s i := by
  induction s generalizing i with
  | nil => rfl
  | cons d s ih =>
    show (match charAt (c :: t) (i+1) with
      | some e => if e = d then litAt (c :: t) s (i+1+1) else false
      | none => false) = litAt t (d :: s) i
    rw [charAt_cons_succ, ih (i+1)]
    rfl

theorem litAt_append (t a b : Text) (i : Nat) :
    litAt t (a ++ b) i = (litAt t a i && litAt t b (i + a.length)) := by
  induction a generalizing i with
  | nil => simp [litAt]
  | cons c a ih =>
    show (match charAt t i with
      | some e => if e = c then litAt t (a ++ b) (i+1) else false
      | none => false) =
      ((match charAt t i with
        | some e => if e = c then litAt t a (i+1) else false
        | none => false) && litAt t b (i + (c :: a).length))
    have harith : (i+1) + a.length = i + (c :: a).length := by
      simp only [List.length_cons]; omega
    cases h : charAt t i with
    | none => simp
    | some d =>
      by_cases hd : d = c
      · simp [hd, ih (i+1), harith]
      · simp [hd]

theorem litAt_self_append (s u : Text) : litAt (s ++ u) s 0 = true := by
  induction s with
  | nil => rfl
  | cons c s ih =>
    show (match charAt (c :: (s ++ u)) 0 with
      | some e => if e = c then litAt (c :: (s ++ u)) s 1 else false
      | none => false) = true
    show (if c = c then litAt (c :: (s ++ u)) s 1 else false) = true
    rw [if_pos rfl, litAt_cons_succ c (s ++ u) s 0, ih]

/-- Unfolding equation for `litAt` on a cons literal. -/
theorem litAt_cons_eq (t : Text) (c : Char) (s : Text) (i : Nat) :
    litAt t (c :: s) i = (match charAt t i with
      | some d => if d = c then litAt t s (i+1) else false
      | none => false) := rfl

/-- From a successful cons-literal comparison, extract the head-character
hit and the tail comparison. -/
theorem litAt_cons_elim {t : Text} {c : Char} {s : Text} {i : Nat}
    (h : litAt t (c :: s) i = true) :
    charAt t i = some c ∧ litAt t s (i+1) = true := by
  rw [litAt_cons_eq] at h
  cases hc : charAt t i with
  | none => rw [hc] at h; exact absurd h (by simp)
  | some e =>
    rw [hc] at h
    replace h : (if e = c then litAt t s (i+1) else false) = true := h
    by_cases he : e = c
    · rw [if_pos he] at h
      refine ⟨?_, h⟩
      rw [he]
    · rw [if_neg he] at h; exact absurd h (by simp)

theorem litAt_charAt {t s : Text} {i : Nat} (h : litAt t s i = true) :
    ∀ k c, charAt s k = some c → charAt t (i + k) = some c := by
  induction s generalizing i with
  | nil => intro k c hk; simp [charAt] at hk
  | cons d s ih =>
    intro k c hk
    obtain ⟨hhd, htl⟩ := litAt_cons_elim h
    cases k with
    | zero => simp [charAt] at hk; simpa [hk] using hhd
    | succ m =>
      have hm : charAt s m = some c := by simpa [charAt_cons_succ] using hk
      have := ih htl m c hm
      have harith : i + (m + 1) = (i + 1) + m := by omega
      rw [harith]
      exact this

theorem litAt_length_le {t : Text} {c : Char} {s : Text} {i : Nat}
    (h : litAt t (c :: s) i = true) : i + (c :: s).length ≤ t.length := by
  induction s generalizing i c with
  | nil =>
    obtain ⟨hhd, _⟩ := litAt_cons_elim h
    have := charAt_some_lt hhd
    simp only [List.length_cons, List.length_nil]
    omega
  | cons d s ih =>
    obtain ⟨hhd, htl⟩ := litAt_cons_elim h
    have := ih htl
    simp only [List.length_cons] at this ⊢
    omega

theorem litAt_trans {x r m : Text} {j i : Nat} (hr : litAt x r j = true)
    (hm : litAt r m i = true) : litAt x m (j + i) = true := by
  induction m generalizing i with
  | nil => rfl
  | cons c m ih =>
    obtain ⟨hhd, htl⟩ := litAt_cons_elim hm
    have hx : charAt x (j + i) = some c := litAt_charAt hr i c hhd
    rw [litAt_cons_eq, hx]
    have := ih htl
    have harith : j + (i + 1) = j + i + 1 := by omega
    rw [harith] at this
    simpa using this

theorem occ_cons {m t : Text} (c : Char) (h : Occ m t) : Occ m (c :: t) := by
  obtain ⟨i, hi⟩ := h
  exact ⟨i + 1, by rw [litAt_cons_succ]; exact hi⟩

theorem occ_trans {m r x : Text} (h1 : Occ m r) (h2 : Occ r x) : Occ m x := by
  obtain ⟨i, hi⟩ := h1
  obtain ⟨j, hj⟩ := h2
  exact ⟨j + i, litAt_trans hj hi⟩

theorem occ_append_left {m : Text} (r u : Text) (h : Occ m r) : Occ m (r ++ u) :=
  occ_trans h ⟨0, litAt_self_append r u⟩

theorem containsStr_iff_occ (t s : Text) : containsStr t s = true ↔ Occ s t := by
  constructor
  · intro h
    obtain ⟨i, -, hi⟩ := List.any_eq_true.mp h
    exact ⟨i, hi⟩
  · intro h
    obtain ⟨i, hi⟩ := h
    apply List.any_eq_true.mpr
    cases s with
    | nil => exact ⟨0, by simp [List.mem_range], rfl⟩
    | cons c s =>
      have hle := litAt_length_le hi
      refine ⟨i, ?_, hi⟩
      simp only [List.mem_range, List.length_cons] at hle ⊢
      omega

/-! ### Lemmas about the matcher -/

theorem matchToks_nil_eq (t : Text) (i : Nat) : matchToks t [] i = some i := rfl

theorem matchToks_lit_eq (t s : Text) (rest : List RTok) (i : Nat) :
    matchToks t (RTok.lit s :: rest) i =
      if litAt t s i then matchToks t rest (i + s.length) else none := rfl

theorem matchToks_clsE_eq (t cs : Text) (n : Nat) (rest : List RTok) (i : Nat) :
    matchToks t (RTok.clsE cs n :: rest) i =
      if clsAt t cs n i then matchToks t rest (i + n) else none := rfl

theorem matchToks_clsP_eq (t cs : Text) (rest : List RTok) (i : Nat) :
    matchToks t (RTok.clsP cs :: rest) i =
      tryDown (matchToks t rest) i (runLen t cs t.length i) := rfl

theorem matchToks_lazy_eq (t : Text) (rest : List RTok) (i : Nat) :
    matchToks t (RTok.lazy :: rest) i =
      tryUp (matchToks t rest) i (t.length + 1 - i) := rfl

theorem matchToks_bol_eq (t : Text) (rest : List RTok) (i : Nat) :
    matchToks t (RTok.bol :: rest) i =
      if bolAt t i then matchToks t rest i else none := rfl

theorem matchToks_eol_eq (t : Text) (rest : List RTok) (i : Nat) :
    matchToks t (RTok.eol :: rest) i =
      if eolAt t i then matchToks t rest i else none := rfl

theorem clsAt_of_litAt {t w : Text} {i : Nat} (cs : Text) (h : litAt t w i = true)
    (hw : ∀ c ∈ w, cs.contains c = true) : clsAt t cs w.length i = true := by
  induction w generalizing i with
  | nil => rfl
  | cons c w ih =>
    obtain ⟨hhd, htl⟩ := litAt_cons_elim h
    show (match charAt t i with
      | some d => if cs.contains d then clsAt t cs w.length (i+1) else false
      | none => false) = true
    rw [hhd]
    have hc : cs.contains c = true := hw c (by simp)
    simp only [hc, if_true]
    exact ih htl (fun d hd => hw d (by simp [hd]))

theorem tryUp_some {k : Nat → Option Nat} {j fuel e : Nat}
    (h : tryUp k j fuel = some e) : ∃ m, j ≤ m ∧ k m = some e := by
  induction fuel generalizing j with
  | zero => simp [tryUp] at h
  | succ fuel ih =>
    rw [tryUp] at h
    cases hk : k j with
    | some e2 => rw [hk] at h; exact ⟨j, Nat.le_refl j, by rw [hk, ← h]⟩
    | none =>
      rw [hk] at h
      obtain ⟨m, hm1, hm2⟩ := ih h
      exact ⟨m, by omega, hm2⟩

theorem tryDown_some {k : Nat → Option Nat} {i m e : Nat}
    (h : tryDown k i m = some e) : ∃ l, 1 ≤ l ∧ k (i + l) = some e := by
  induction m with
  | zero => simp [tryDown] at h
  | succ m ih =>
    rw [tryDown] at h
    cases hk : k (i + (m + 1)) with
    | some e2 => rw [hk] at h; exact ⟨m + 1, by omega, by rw [hk, ← h]⟩
    | none => rw [hk] at h; exact ih h

theorem matchToks_le {t : Text} {p : List RTok} {i e : Nat}
    (h : matchToks t p i = some e) : i ≤ e := by
  induction p generalizing i e with
  | nil => simp [matchToks] at h; omega
  | cons tok rest ih =>
    cases tok with
    | lit s =>
      rw [matchToks_lit_eq] at h
      by_cases hl : litAt t s i
      · rw [if_pos hl] at h; have := ih h; omega
      · rw [if_neg hl] at h; exact absurd h (by simp)
    | clsE cs n =>
      rw [matchToks_clsE_eq] at h
      by_cases hl : clsAt t cs n i
      · rw [if_pos hl] at h; have := ih h; omega
      · rw [if_neg hl] at h; exact absurd h (by simp)
    | clsP cs =>
      rw [matchToks_clsP_eq] at h
      obtain ⟨l, hl1, hl2⟩ := tryDown_some h
      have := ih hl2; omega
    | lazy =>
      rw [matchToks_lazy_eq] at h
      obtain ⟨m, hm1, hm2⟩ := tryUp_some h
      have := ih hm2; omega
    | bol =>
      rw [matchToks_bol_eq] at h
      by_cases hb : bolAt t i
      · rw [if_pos hb] at h; exact ih h
      · rw [if_neg hb] at h; exact absurd h (by simp)
    | eol =>
      rw [matchToks_eol_eq] at h
      by_cases hb : eolAt t i
      · rw [if_pos hb] at h; exact ih h
      · rw [if_neg hb] at h; exact absurd h (by simp)

/-- A pattern whose first token is a nonempty literal only matches at
positions strictly inside the text. -/
theorem matchToks_litHead_lt {t : Text} {c : Char} {s : Text} {rest : List RTok}
    {i e : Nat} (h : matchToks t (RTok.lit (c :: s) :: rest) i = some e) :
    i < t.length := by
  rw [matchToks_lit_eq] at h
  by_cases hl : litAt t (c :: s) i
  · obtain ⟨hhd, _⟩ := litAt_cons_elim hl
    exact charAt_some_lt hhd
  · rw [if_neg hl] at h; exact absurd h (by simp)

/-- If the head literal of a pattern occurs nowhere in the text, the pattern
matches nowhere. -/
theorem matchToks_none_of_no_occ {t s : Text} {rest : List RTok}
    (h : ¬ Occ s t) (i : Nat) : matchToks t (RTok.lit s :: rest) i = none := by
  rw [matchToks_lit_eq]
  have hl : litAt t s i ≠ true := fun hl => h ⟨i, hl⟩
  rw [if_neg hl]

/-! ### Lemmas about the substitution scan -/

/-- If the pattern matches nowhere at or after `i`, the scan copies the text. -/
theorem subGo_eq_drop {t : Text} {p : List RTok} {repl : Text} {i fuel : Nat}
    (h : ∀ j, i ≤ j → matchToks t p j = none) :
    subGo t p repl i fuel = t.drop i := by
  induction fuel generalizing i with
  | zero => rfl
  | succ fuel ih =>
    rw [subGo]
    cases hc : charAt t i with
    | none => exact (drop_nil_of_charAt hc).symm
    | some c =>
      rw [h i (Nat.le_refl i)]
      rw [ih (fun j hj => h j (by omega))]
      exact (drop_cons_of_charAt hc).symm

/-- If the pattern matches nowhere, `re.sub` is the identity. -/
theorem subAll_eq_of_noMatch {t : Text} {p : List RTok} {repl : Text}
    (h : ∀ j, matchToks t p j = none) : subAll p repl t = t := by
  rw [subAll, subGo_eq_drop (fun j _ => h j)]
  exact List.drop_zero t

/-- If `re.sub` changed the text, the pattern matched somewhere. -/
theorem subAll_ne_exists_match {t : Text} {p : List RTok} {repl : Text}
    (h : subAll p repl t ≠ t) : ∃ j e, matchToks t p j = some e := by
  by_contra hn
  push_neg at hn
  apply h
  apply subAll_eq_of_noMatch
  intro j
  cases he : matchToks t p j with
  | none => rfl
  | some e => exact absurd he (hn j e)

/-- The `litAt` fact behind `Occ repl (repl ++ u)` packaged for reuse. -/
theorem occ_self_append (repl u : Text) : Occ repl (repl ++ u) :=
  ⟨0, litAt_self_append repl u⟩

/-- If the pattern matches somewhere in the text, the replacement occurs in
the output of the scan. -/
theorem subGo_occ_repl {t : Text} {p : List RTok} {repl : Text} {i j e fuel : Nat}
    (hfuel : t.length ≤ i + fuel) (hij : i ≤ j) (hjt : j < t.length)
    (hm : matchToks t p j = some e) : Occ repl (subGo t p repl i fuel) := by
  induction fuel generalizing i with
  | zero => omega
  | succ fuel ih =>
    have hit : i < t.length := by omega
    rw [subGo]
    split
    · next hnone =>
      obtain ⟨c, hc⟩ := charAt_lt_some hit
      rw [hc] at hnone
      exact Option.noConfusion hnone
    · next c hc =>
      split
      · next e2 hmi =>
        split
        · exact occ_self_append repl _
        · exact occ_self_append repl _
      · next hmi =>
        have hne : i ≠ j := fun hij2 => by rw [hij2, hm] at hmi; exact Option.noConfusion hmi
        exact occ_cons c (ih (by omega) (by omega))

/-- If the pattern matches somewhere, the replacement occurs in the output
of `re.sub`. -/
theorem subAll_occ_repl {t : Text} {p : List RTok} {repl : Text} {j e : Nat}
    (hjt : j < t.length) (hm : matchToks t p j = some e) :
    Occ repl (subAll p repl t) :=
  subGo_occ_repl (by omega) (Nat.zero_le j) hjt hm

/-- Marker preservation: if `m` occurs in the text and in the replacement,
it occurs in the output of `re.sub` (whatever the pattern does), provided
every match position is inside the text. -/
theorem occ_subAll_of_occ {t : Text} {p : List RTok} {repl m : Text}
    (hb : ∀ j e, matchToks t p j = some e → j < t.length)
    (ht : Occ m t) (hr : Occ m repl) : Occ m (subAll p repl t) := by
  cases Classical.em (∃ j e, matchToks t p j = some e) with
  | inl hex =>
    obtain ⟨j, e, hj⟩ := hex
    exact occ_trans hr (subAll_occ_repl (hb j e hj) hj)
  | inr hno =>
    rw [subAll_eq_of_noMatch]
    · exact ht
    · intro j
      cases he : matchToks t p j with
      | none => rfl
      | some e => exact absurd ⟨j, e, he⟩ hno

/-- A helper bound: patterns headed by a nonempty literal only match inside
the text (stated for an arbitrary such pattern). -/
theorem litHead_bound {t : Text} (c : Char) (s : Text) (rest : List RTok) :
    ∀ j e, matchToks t (RTok.lit (c :: s) :: rest) j = some e → j < t.length :=
  fun _ _ h => matchToks_litHead_lt h

/-- An occurrence of `a ++ w ++ q` with `w` drawn from the class `cs` yields
a match of the pattern `lit a; cls{n} cs; lit q` at the same position. -/
theorem matchToks_lit_clsE_lit {t a w q : Text} {cs : Text} {i : Nat}
    (hw : ∀ c ∈ w, cs.contains c = true)
    (h : litAt t (a ++ (w ++ q)) i = true) :
    matchToks t [RTok.lit a, RTok.clsE cs w.length, RTok.lit q] i =
      some (i + a.length + w.length + q.length) := by
  rw [litAt_append] at h
  obtain ⟨ha, hrest⟩ := Bool.and_eq_true _ _ |>.mp h
  rw [litAt_append] at hrest
  obtain ⟨hwl, hq⟩ := Bool.and_eq_true _ _ |>.mp hrest
  rw [matchToks_lit_eq, if_pos ha, matchToks_clsE_eq,
    if_pos (clsAt_of_litAt cs hwl hw), matchToks_lit_eq, if_pos hq]
  rfl

/-! ### Claim theorems -/

theorem if_bool_eq_and (b s : Bool) : (if b then s else false) = (b && s) := by
  cases b <;> simp

/-- C2: for each target file, the file is written back exactly when the
transformed text differs from the text originally read; when the text is
unchanged the on-disk content stays the original and only the warning is
emitted. -/
theorem write_iff_changed (t : Text) :
    ((runPatchFile patch_content_analyser_transform t).wrote = true ↔
      patch_content_analyser_transform t ≠ t) ∧
    ((runPatchFile patch_core_transform t).wrote = true ↔
      patch_core_transform t ≠ t) ∧
    (runPatchFile patch_content_analyser_transform t).text =
      (if patch_content_analyser_transform t = t then t
       else patch_content_analyser_transform t) ∧
    (runPatchFile patch_core_transform t).text =
      (if patch_core_transform t = t then t else patch_core_transform t) ∧
    ((runPatchFile patch_content_analyser_transform t).warned = true ↔
      patch_content_analyser_transform t = t) ∧
    ((runPatchFile patch_core_transform t).warned = true ↔
      patch_core_transform t = t) := by
  by_cases h1 : patch_content_analyser_transform t = t <;>
    by_cases h2 : patch_core_transform t = t <;>
    simp [runPatchFile, h1, h2]

/-- C3: `verify_patches` returns true exactly when every checked marker in
every existing target file is present: three distinct markers for the
moderation file, the generic marker for the integrity file, and a missing
file is skipped and contributes no failure; all three moderation checks are
always evaluated. -/
theorem verify_patches_iff (ca co : Option Text) :
    (verify_patches ca co = true ↔
      ((∀ c, ca = some c →
          containsStr c (s2l "# PATCHED: NSFW models removed") = true ∧
          containsStr c (s2l "# PATCHED: Skip NSFW model downloads") = true ∧
          containsStr c (s2l "# PATCHED: NSFW check disabled") = true) ∧
       (∀ c, co = some c → containsStr c (s2l "# PATCHED") = true))) ∧
    (∀ c, (caChecks c).length = 3) ∧
    [s2l "# PATCHED: NSFW models removed", s2l "# PATCHED: Skip NSFW model downloads",
     s2l "# PATCHED: NSFW check disabled"].Nodup := by
  refine ⟨?_, fun c => rfl, by decide⟩
  cases ca <;> cases co <;>
    simp [verify_patches, caChecks, if_bool_eq_and, Bool.and_eq_true, and_assoc] <;>
    tauto

/-- C3 witness: a moderation text carrying all three markers and an integrity
text carrying the generic marker verify successfully. -/
theorem verify_patches_iff_witness :
    verify_patches (some allMarkersText) (some coreR3) = true := by
  refine ((verify_patches_iff (some allMarkersText) (some coreR3)).1).mpr ⟨?_, ?_⟩
  · intro c hc
    injection hc with h
    subst h
    exact ⟨by decide, by decide, by decide⟩
  · intro c hc
    injection hc with h
    subst h
    decide

/-- C6: the looser third substitution of `patch_core` is attempted exactly
when the text is still unchanged from the original after the first two
strategies. -/
theorem patch_core_strategy3_iff (t : Text) :
    (subAll coreP2 coreR2 (subAll coreP1 coreR1 t) ≠ t →
      patch_core_transform t = subAll coreP2 coreR2 (subAll coreP1 coreR1 t)) ∧
    (subAll coreP2 coreR2 (subAll coreP1 coreR1 t) = t →
      patch_core_transform t =
        subAll coreP3 coreR3 (subAll coreP2 coreR2 (subAll coreP1 coreR1 t))) := by
  constructor
  · intro h
    simp only [patch_core_transform]
    rw [if_neg h]
  · intro h
    simp only [patch_core_transform]
    rw [if_pos h]

/-- C6 witness: on a text where strategy 1 fires and a 3-hex-digit comparison
remains (which only the looser pattern could rewrite), the third strategy is
skipped because the text changed. -/
theorem patch_core_strategy3_iff_witness :
    subAll coreP2 coreR2 (subAll coreP1 coreR1 twoHashText) ≠ twoHashText ∧
    patch_core_transform twoHashText =
      subAll coreP2 coreR2 (subAll coreP1 coreR1 twoHashText) := by
  have h : subAll coreP2 coreR2 (subAll coreP1 coreR1 twoHashText) ≠ twoHashText := by
    decide
  exact ⟨h, (patch_core_strategy3_iff twoHashText).1 h⟩

/-- C9 counterexample: `patch_content_analyser` does not apply six rewrite
rules. -/
theorem content_rules_not_six : contentRules.length ≠ 6 := by decide

/-- C9 amended: `patch_content_analyser` applies, in a fixed order, exactly
seven rewrite rules, and their structural head landmarks are pairwise
distinct (each targets a distinct named definition). -/
theorem content_rules_seven :
    contentRules.length = 7 ∧
    (∀ t, patch_content_analyser_transform t =
      contentRules.foldl (fun c r => subAll r.1 r.2 c) t) ∧
    (contentRules.map (fun r => headOfPattern r.1)).Nodup := by
  refine ⟨rfl, fun t => rfl, ?_⟩
  decide

/-- A pattern headed by a nonempty literal only matches strictly inside the
text (generic form used to instantiate the marker-preservation lemma). -/
theorem litHead_bound_ne {t s : Text} (hs : s ≠ []) (rest : List RTok) :
    ∀ j e, matchToks t (RTok.lit s :: rest) j = some e → j < t.length := by
  intro j e h
  rw [matchToks_lit_eq] at h
  by_cases hl : litAt t s j
  · cases s with
    | nil => exact absurd rfl hs
    | cons c s2 =>
      obtain ⟨hhd, -⟩ := litAt_cons_elim hl
      exact charAt_some_lt hhd
  · rw [if_neg hl] at h
    exact absurd h (by simp)

/-- A successful comparison of a nonempty literal starts inside the text. -/
theorem litAt_lt_of_ne_nil {t s : Text} {i : Nat} (hs : s ≠ [])
    (h : litAt t s i = true) : i < t.length := by
  cases s with
  | nil => exact absurd rfl hs
  | cons c s2 =>
    obtain ⟨hhd, -⟩ := litAt_cons_elim h
    exact charAt_some_lt hhd

/-- The generic marker occurs in each of the three `patch_core` replacements. -/
theorem core_repls_carry_marker :
    Occ (s2l "# PATCHED") coreR1 ∧ Occ (s2l "# PATCHED") coreR2 ∧
    Occ (s2l "# PATCHED") coreR3 :=
  ⟨(containsStr_iff_occ _ _).mp (by decide), (containsStr_iff_occ _ _).mp (by decide),
   (containsStr_iff_occ _ _).mp (by decide)⟩

/-- Whatever `patch_core` does after producing an intermediate text carrying
the generic marker, the marker survives to its output. -/
theorem patch_core_marker_from_c2 {t : Text}
    (h2 : Occ (s2l "# PATCHED") (subAll coreP2 coreR2 (subAll coreP1 coreR1 t))) :
    Occ (s2l "# PATCHED") (patch_core_transform t) := by
  simp only [patch_core_transform]
  split
  · exact occ_subAll_of_occ (litHead_bound_ne (by decide) _) h2
      ((containsStr_iff_occ _ _).mp (by decide))
  · exact h2

/-- C5: on any integrity-file text containing the exact landmark comparison
`content_analyser_hash == 'deadbeef'`, strategy 1 places its constant-true
replacement in the text, the final output of `patch_core` carries the
generic marker, and the verifier's integrity-file check passes. -/
theorem core_deadbeef_patched (t : Text)
    (h : containsStr t deadbeefText = true) :
    Occ coreR1 (subAll coreP1 coreR1 t) ∧
    containsStr (patch_core_transform t) (s2l "# PATCHED") = true ∧
    verify_patches none (some (patch_core_transform t)) = true := by
  obtain ⟨i, hi⟩ := (containsStr_iff_occ _ _).mp h
  rw [show deadbeefText =
    s2l "content_analyser_hash == '" ++ (s2l "deadbeef" ++ s2l "'") by decide] at hi
  have hm : matchToks t coreP1 i =
      some (i + (s2l "content_analyser_hash == '").length +
        (s2l "deadbeef").length + (s2l "'").length) :=
    @matchToks_lit_clsE_lit t _ _ _ hexChars i (by decide) hi
  have hlt : i < t.length := litAt_lt_of_ne_nil (by decide) hi
  have h1 : Occ coreR1 (subAll coreP1 coreR1 t) := subAll_occ_repl hlt hm
  obtain ⟨hk1, hk2, hk3⟩ := core_repls_carry_marker
  have hc1 : Occ (s2l "# PATCHED") (subAll coreP1 coreR1 t) := occ_trans hk1 h1
  have hc2 : Occ (s2l "# PATCHED") (subAll coreP2 coreR2 (subAll coreP1 coreR1 t)) :=
    occ_subAll_of_occ (litHead_bound_ne (by decide) _) hc1 hk2
  have hfin : Occ (s2l "# PATCHED") (patch_core_transform t) :=
    patch_core_marker_from_c2 hc2
  have hcs : containsStr (patch_core_transform t) (s2l "# PATCHED") = true :=
    (containsStr_iff_occ _ _).mpr hfin
  exact ⟨h1, hcs, by simp [verify_patches, hcs]⟩

/-- C5 witness at the landmark text itself. -/
theorem core_deadbeef_patched_witness :
    Occ coreR1 (subAll coreP1 coreR1 deadbeefText) ∧
    containsStr (patch_core_transform deadbeefText) (s2l "# PATCHED") = true ∧
    verify_patches none (some (patch_core_transform deadbeefText)) = true :=
  core_deadbeef_patched deadbeefText (by decide)

/-- C10: whenever `patch_core` changes (hence writes back) the text, the
result contains the generic marker `# PATCHED`, so the verifier's
integrity-file check passes on every file `patch_core` has modified. -/
theorem patch_core_change_implies_marker (t : Text)
    (h : patch_core_transform t ≠ t) :
    containsStr (patch_core_transform t) (s2l "# PATCHED") = true ∧
    verify_patches none (some (patch_core_transform t)) = true := by
  obtain ⟨hk1, hk2, hk3⟩ := core_repls_carry_marker
  have hfin : Occ (s2l "# PATCHED") (patch_core_transform t) := by
    by_cases hif : subAll coreP2 coreR2 (subAll coreP1 coreR1 t) = t
    · have heq : patch_core_transform t =
          subAll coreP3 coreR3 (subAll coreP2 coreR2 (subAll coreP1 coreR1 t)) :=
        (patch_core_strategy3_iff t).2 hif
      rw [heq, hif] at h ⊢
      obtain ⟨j, e, hj⟩ := subAll_ne_exists_match h
      have hlt : j < t.length := litHead_bound_ne (by decide) _ j e hj
      exact occ_trans hk3 (subAll_occ_repl hlt hj)
    · have heq : patch_core_transform t =
          subAll coreP2 coreR2 (subAll coreP1 coreR1 t) :=
        (patch_core_strategy3_iff t).1 hif
      rw [heq]
      by_cases h1 : subAll coreP1 coreR1 t = t
      · rw [h1] at hif ⊢
        obtain ⟨j, e, hj⟩ := subAll_ne_exists_match hif
        have hlt : j < t.length := litHead_bound_ne (by decide) _ j e hj
        exact occ_trans hk2 (subAll_occ_repl hlt hj)
      · obtain ⟨j, e, hj⟩ := subAll_ne_exists_match h1
        have hlt : j < t.length := litHead_bound_ne (by decide) _ j e hj
        have hc1 : Occ (s2l "# PATCHED") (subAll coreP1 coreR1 t) :=
          occ_trans hk1 (subAll_occ_repl hlt hj)
        exact occ_subAll_of_occ (litHead_bound_ne (by decide) _) hc1 hk2
  have hcs := (containsStr_iff_occ _ _).mpr hfin
  exact ⟨hcs, by simp [verify_patches, hcs]⟩

/-- C10 witness: the landmark text is changed by `patch_core` and the
conclusion holds there. -/
theorem patch_core_change_implies_marker_witness :
    containsStr (patch_core_transform deadbeefText) (s2l "True  # PATCHED") = true ∧
    containsStr (patch_core_transform deadbeefText) (s2l "# PATCHED") = true ∧
    verify_patches none (some (patch_core_transform deadbeefText)) = true := by
  have h := patch_core_change_implies_marker deadbeefText (by decide)
  exact ⟨by decide, h.1, h.2⟩

/-- C1 counterexample: the full rewrite sequence is not idempotent on every
input text.  On `twoHashText` the first run rewrites only the 8-hex-digit
comparison (so the looser third strategy is skipped); the second run finds
the text unchanged by strategies 1 and 2, so the looser pattern fires on the
remaining 3-hex-digit comparison and changes the text again. -/
theorem apply_all_not_idempotent :
    applyAllPatches (applyAllPatches twoHashText) ≠ applyAllPatches twoHashText := by
  decide

/-- C1 amended: each individual substitution is idempotent on already-patched
text — re-applying any of the ten rules to that rule's own replacement text
leaves it unchanged — but full-sequence idempotence fails for arbitrary
texts (see the counterexample). -/
theorem rules_fixed_on_own_replacement :
    subAll caP1 caR1 caR1 = caR1 ∧ subAll caP2 caR2 caR2 = caR2 ∧
    subAll caP3 caR3 caR3 = caR3 ∧ subAll caP4 caR4 caR4 = caR4 ∧
    subAll caP5 caR5 caR5 = caR5 ∧ subAll caP6 caR6 caR6 = caR6 ∧
    subAll caP7 caR7 caR7 = caR7 ∧ subAll coreP1 coreR1 coreR1 = coreR1 ∧
    subAll coreP2 coreR2 coreR2 = coreR2 ∧ subAll coreP3 coreR3 coreR3 = coreR3 := by
  refine ⟨?_, ?_, ?_, ?_, ?_, ?_, ?_, ?_, ?_, ?_⟩ <;> decide

/-- C4 counterexample: a moderation text that contains the exact
`analyse_frame` landmark, yet after `patch_content_analyser` the marker
`# PATCHED: NSFW check disabled` is absent and the verifier's
`analyse_frame disabled` check fails — rule 2's lazy span swallows the
`analyse_frame` definition before rule 3 runs. -/
theorem analyse_frame_not_always_patched :
    containsStr swallowedFrameText analyseFrameText = true ∧
    (caChecks (patch_content_analyser_transform swallowedFrameText))[2]? =
      some ("analyse_frame disabled", false) := by
  refine ⟨?_, ?_⟩ <;> decide

/-- C4 amended: on a moderation text consisting of the exact original
`analyse_frame` definition (no other rule's span interfering),
`patch_content_analyser` produces the same-named definition returning the
constant `False` with the marker comment, and the verifier reports the
`analyse_frame disabled` check as passed. -/
theorem analyse_frame_patched_canonical :
    patch_content_analyser_transform analyseFrameText = caR3 ∧
    containsStr caR3 (s2l "def analyse_frame(vision_frame : VisionFrame) -> bool:") = true ∧
    containsStr caR3 (s2l "\treturn False") = true ∧
    containsStr caR3 (s2l "# PATCHED: NSFW check disabled") = true ∧
    (caChecks (patch_content_analyser_transform analyseFrameText))[2]? =
      some ("analyse_frame disabled", true) := by
  refine ⟨?_, ?_, ?_, ?_, ?_⟩ <;> decide

/-- C8 counterexample: rules 3 and 4 are distinct rules whose replacements
embed the same marker comment, and a text containing only the
`analyse_stream` landmark (no `analyse_frame` at all) yields that marker
after rewriting — so the marker's presence does not imply that the specific
rule embedding it fired. -/
theorem markers_not_rule_specific :
    extractMarker caR3 = extractMarker caR4 ∧ caR3 ≠ caR4 ∧
    containsStr streamOnlyText (s2l "analyse_frame") = false ∧
    containsStr (patch_content_analyser_transform streamOnlyText)
      (s2l "# PATCHED: NSFW check disabled") = true := by
  refine ⟨?_, ?_, ?_, ?_⟩ <;> decide

/-- C8 amended: every replacement embeds a marker comment, but markers are
unique only per verification group: rules 1, 2 and 7 carry distinct markers
while rules 3–6 share `# PATCHED: NSFW check disabled`, and the three
`patch_core` replacements all carry the generic `# PATCHED`. -/
theorem markers_identify_groups :
    extractMarker caR1 = s2l "# PATCHED: NSFW models removed" ∧
    extractMarker caR2 = s2l "# PATCHED: Skip NSFW model downloads" ∧
    extractMarker caR3 = s2l "# PATCHED: NSFW check disabled" ∧
    extractMarker caR4 = s2l "# PATCHED: NSFW check disabled" ∧
    extractMarker caR5 = s2l "# PATCHED: NSFW check disabled" ∧
    extractMarker caR6 = s2l "# PATCHED: NSFW check disabled" ∧
    extractMarker caR7 = s2l "# PATCHED: NSFW detection disabled" ∧
    [extractMarker caR1, extractMarker caR2, extractMarker caR3,
      extractMarker caR7].Nodup ∧
    containsStr coreR1 (s2l "# PATCHED") = true ∧
    containsStr coreR2 (s2l "# PATCHED") = true ∧
    containsStr coreR3 (s2l "# PATCHED") = true := by
  refine ⟨?_, ?_, ?_, ?_, ?_, ?_, ?_, ?_, ?_, ?_, ?_⟩ <;> decide

/-- C7: the entry point exits with status 1 before any write when the
argument count is wrong (with no file access at all), when the root
directory is missing, or when either fixed target path is missing; in each
case the filesystem is left untouched. -/
theorem main_early_exit (argv : List String) (fs : FS) :
    (argv.length ≠ 2 → mainRun argv fs = ⟨1, [], [], fs⟩) ∧
    (∀ a dir, argv = [a, dir] → dir ∉ fs.dirs →
      mainRun argv fs = ⟨1, [dir], [], fs⟩) ∧
    (∀ a dir, argv = [a, dir] → dir ∈ fs.dirs →
      fs.fileGet (dir ++ "/facefusion/content_analyser.py") = none →
      mainRun argv fs =
        ⟨1, [dir, dir ++ "/facefusion/content_analyser.py"], [], fs⟩) ∧
    (∀ a dir, argv = [a, dir] → dir ∈ fs.dirs →
      fs.fileGet (dir ++ "/facefusion/content_analyser.py") ≠ none →
      fs.fileGet (dir ++ "/facefusion/core.py") = none →
      mainRun argv fs =
        ⟨1, [dir, dir ++ "/facefusion/content_analyser.py",
             dir ++ "/facefusion/core.py"], [], fs⟩) := by
  refine ⟨?_, ?_, ?_, ?_⟩
  · intro h
    match argv with
    | [] => rfl
    | [a] => rfl
    | [a, b] => simp at h
    | a :: b :: q :: rest => rfl
  · intro a dir hav hdir
    subst hav
    simp only [mainRun]
    rw [if_pos hdir]
  · intro a dir hav hdir hca
    subst hav
    simp only [mainRun]
    rw [if_neg (not_not_intro hdir), if_pos hca]
  · intro a dir hav hdir hca hco
    subst hav
    simp only [mainRun]
    rw [if_neg (not_not_intro hdir), if_neg hca, if_pos hco]

/-- C7 witness: with no arguments the run exits 1 touching nothing, and with
a nonexistent root directory it exits 1 after only the directory check. -/
theorem main_early_exit_witness :
    mainRun [] fs0 = ⟨1, [], [], fs0⟩ ∧
    mainRun ["patch-facefusion.py", "root"] fs0 = ⟨1, ["root"], [], fs0⟩ := by
  refine ⟨(main_early_exit [] fs0).1 (by decide), ?_⟩
  exact (main_early_exit ["patch-facefusion.py", "root"] fs0).2.1
    "patch-facefusion.py" "root" rfl (by simp [fs0])

end FFPatch
